import Mathlib

/-!
Verification of the rolling-ball background removal engine
(`storm_analysis/rolling_ball_bgr/rolling_ball_lib_c.py`).

The Python wrapper is embedded shallowly: numpy float64 arithmetic is
modelled over the reals, input pixel data and the configuration scalars
over the rationals (every float literal in play is rational).  A numpy
array cell holding NaN (from `numpy.sqrt` of a negative number) is
modelled as `Option.none`.  The native routine `rolling_ball_lib.c` is
not part of the sources; its operations are modelled from the spec and
marked as such in their doc comments.
-/

namespace RollingBall

/-- Python's builtin `round` to an integer: round half to even
(banker's rounding), as used by `int(round(ball_radius * 0.5))`. -/
def pythonRound (q : ℚ) : ℤ :=
  let f := ⌊q⌋
  let frac := q - f
  if frac < 1/2 then f
  else if 1/2 < frac then f + 1
  else if f % 2 = 0 then f else f + 1

/-- Definition of `ball_size = int(round(ball_radius * 0.5))` from `CRollingBall.__init__`. -/
def ballSize (ball_radius : ℚ) : ℤ := pythonRound (ball_radius * (1/2))

/-- The pre-sqrt kernel grid from `CRollingBall.__init__`:
`ball[x,y] = br - (dx*dx + dy*dy)` with `dx = x - ball_size`,
`dy = y - ball_size`, for `x, y in range(2*ball_size+1)`. -/
def ballGridPre (ball_radius : ℚ) : List (List ℚ) :=
  let bs := ballSize ball_radius
  let br := ball_radius * ball_radius
  let n := (2 * bs + 1).toNat
  (List.range n).map (fun (x : ℕ) =>
    (List.range n).map (fun (y : ℕ) =>
      br - (((x : ℤ) - bs) * ((x : ℤ) - bs) + ((y : ℤ) - bs) * ((y : ℤ) - bs))))

/-- Behavior of `numpy.sqrt` on a float64 cell: NaN (modelled `none`) on negative
input, otherwise the real square root. -/
noncomputable def npSqrt (q : ℚ) : Option ℝ :=
  if q < 0 then none else some (Real.sqrt q)

/-- The kernel handed to `rball.init`: half-width `bs` plus the pre-sqrt
cell values indexed by offset `(dx, dy)`; the engine reads cell
`(dx, dy)` as `npSqrt (pre dx dy)`. -/
structure BallKernel where
  bs : ℤ
  pre : ℤ → ℤ → ℚ

/-- The kernel built by `CRollingBall.__init__` for a given radius, in
offset coordinates (`pre dx dy` is `ballGridPre` at `x = dx + bs`,
`y = dy + bs`). -/
def mkKernel (ball_radius : ℚ) : BallKernel :=
  { bs := ballSize ball_radius
    pre := fun dx dy => ball_radius * ball_radius - (dx * dx + dy * dy) }

/-- The float64 value held by kernel cell `(dx, dy)`: `sqrt` of the
pre-sqrt value, NaN (`none`) where that is negative. -/
noncomputable def kcell (k : BallKernel) (dx dy : ℤ) : Option ℝ :=
  npSqrt (k.pre dx dy)

/-- Error kinds of the design: `InvalidParameter`, `DimensionMismatch`,
`InvalidHandle` from the spec's error model, plus `ValueError` for a
Python-level `numpy.zeros` failure on negative dimensions. -/
inductive PyErr where
  | InvalidParameter
  | DimensionMismatch
  | InvalidHandle
  | ValueError
deriving DecidableEq

/-- The `CRollingBall` object: configuration plus the engine handle
(`c_rball`), which `cleanup` sets to `None`. -/
structure CRollingBall where
  ball_radius : ℚ
  smoothing_sigma : ℚ
  c_rball : Option BallKernel

/-- Constructor `CRollingBall.__init__(ball_radius, smoothing_sigma)`: computes
`ball_size`, allocates the `(2*ball_size+1)²` grid (`numpy.zeros`
raises `ValueError` when the dimension is negative), fills it, takes
`numpy.sqrt`, and calls `rball.init` to obtain the handle.  No
validation of `ball_radius` is performed. -/
def CRollingBall.init (ball_radius smoothing_sigma : ℚ) : Except PyErr CRollingBall :=
  let bs := ballSize ball_radius
  if bs < 0 then .error .ValueError
  else .ok { ball_radius := ball_radius
             smoothing_sigma := smoothing_sigma
             c_rball := some (mkKernel ball_radius) }

/-- Method `CRollingBall.cleanup`: releases the engine handle and sets
`self.c_rball = None`. -/
def CRollingBall.cleanup (rb : CRollingBall) : CRollingBall :=
  { rb with c_rball := none }

/-- A 2-D real-valued numpy array: shape plus cell values. -/
structure RImage where
  rows : ℕ
  cols : ℕ
  val : ℤ → ℤ → ℝ

/-- A 2-D input image with rational (exactly representable) pixel
values; `CRollingBall.estimateBG` first converts it to float64. -/
structure QImage where
  rows : ℕ
  cols : ℕ
  val : ℤ → ℤ → ℚ

/-- Conversion `image.astype(numpy.float64)`: pixelwise conversion to a fresh
real-valued array of the same shape. -/
def astype (img : QImage) : RImage :=
  { rows := img.rows, cols := img.cols, val := fun i j => (img.val i j : ℝ) }

/-- The offsets `(dx, dy)` of the `(2*bs+1)²` kernel grid, dx varying
in the outer loop, in `[-bs, bs]²`. -/
def offsetList (bs : ℤ) : List (ℤ × ℤ) :=
  ((List.range (2 * bs + 1).toNat).map (fun (t : ℕ) => -bs + (t : ℤ))).flatMap
    (fun dx => ((List.range (2 * bs + 1).toNat).map (fun (t : ℕ) => -bs + (t : ℤ))).map
      (fun dy => (dx, dy)))

/-- Modelled from the spec: a kernel offset `(dx, dy)` participates in
the minimum at output pixel `(i, j)` when the kernel cell is defined
(not NaN) and the image pixel `(i+dx, j+dy)` lies within bounds; the
candidate is then `image[i+dx, j+dy] - kernel[dx, dy]`.  Offsets
falling outside the image are omitted (no padding). -/
noncomputable def candidate (k : BallKernel) (f : ℤ → ℤ → ℝ) (rows cols : ℕ)
    (i j dx dy : ℤ) : Option ℝ :=
  if 0 ≤ i + dx ∧ i + dx < (rows : ℤ) ∧ 0 ≤ j + dy ∧ j + dy < (cols : ℤ) then
    (kcell k dx dy).map (fun v => f (i + dx) (j + dy) - v)
  else none

/-- Running minimum update: absorb one optional candidate into the
optional accumulator. -/
noncomputable def omin (acc : Option ℝ) (c : Option ℝ) : Option ℝ :=
  match c with
  | none => acc
  | some v =>
    match acc with
    | none => some v
    | some m => some (min m v)

/-- Modelled from the spec: the per-pixel reduction of
`rball.estimateBg` (the native `rolling_ball_lib.c` routine, absent
from the sources) — the running minimum of the candidates over all
kernel offsets, `none` when no offset participates. -/
noncomputable def bgPixel (k : BallKernel) (f : ℤ → ℤ → ℝ) (rows cols : ℕ)
    (i j : ℤ) : Option ℝ :=
  (offsetList k.bs).foldl
    (fun acc o => omin acc (candidate k f rows cols i j o.1 o.2)) none

/-- Modelled from the spec: `rball.estimateBg(handle, sm_image,
ball_image, rows, cols)` writes into the zero-initialized `ball_image`
the per-pixel minimum (a pixel with no participating offset keeps its
zero initialization). -/
noncomputable def estimateBg (k : BallKernel) (f : ℤ → ℤ → ℝ) (rows cols : ℕ) :
    ℤ → ℤ → ℝ :=
  fun i j => (bgPixel k f rows cols i j).getD 0

/-- Window half-width `lw = int(truncate * sigma + 0.5)` with scipy's default
`truncate = 4.0`: the half-width of the truncated Gaussian window. -/
def lw (σ : ℚ) : ℕ := (⌊4 * σ + 1/2⌋).toNat

/-- Modelled from the spec: the unnormalized Gaussian weight
`exp(-d² / (2σ²))` of the Smoother (scipy.ndimage.gaussian_filter is an
external collaborator; §4.3 specifies a Gaussian blur of standard
deviation `smoothing_sigma`, the identity when it is zero). -/
noncomputable def gw (σ : ℚ) (d : ℤ) : ℝ :=
  Real.exp (-((d : ℝ) ^ 2) / (2 * (σ : ℝ) ^ 2))

/-- Normalization constant of the truncated Gaussian window. -/
noncomputable def gnorm (σ : ℚ) : ℝ :=
  ∑ d ∈ Finset.Icc (-(lw σ : ℤ)) (lw σ : ℤ), gw σ d

/-- Normalized Gaussian weight. -/
noncomputable def weight (σ : ℚ) (d : ℤ) : ℝ := gw σ d / gnorm σ

/-- The scipy `reflect` boundary mode `(d c b a | a b c d | d c b a)`:
map an out-of-range index into `[0, n)`. -/
def reflectIdx (n : ℕ) (i : ℤ) : ℤ :=
  if n = 0 then 0
  else
    let r := i % (2 * (n : ℤ))
    if r < (n : ℤ) then r else 2 * (n : ℤ) - 1 - r

/-- Modelled from the spec: the separable Gaussian blur along axis 0
(rows), reflect boundary. -/
noncomputable def smoothAxis0 (σ : ℚ) (rows : ℕ) (f : ℤ → ℤ → ℝ) :
    ℤ → ℤ → ℝ :=
  fun i j => ∑ d ∈ Finset.Icc (-(lw σ : ℤ)) (lw σ : ℤ),
    weight σ d * f (reflectIdx rows (i - d)) j

/-- Modelled from the spec: the separable Gaussian blur along axis 1
(columns), reflect boundary. -/
noncomputable def smoothAxis1 (σ : ℚ) (cols : ℕ) (f : ℤ → ℤ → ℝ) :
    ℤ → ℤ → ℝ :=
  fun i j => ∑ d ∈ Finset.Icc (-(lw σ : ℤ)) (lw σ : ℤ),
    weight σ d * f i (reflectIdx cols (j - d))

/-- Modelled from the spec: `scipy.ndimage.gaussian_filter(image,
sigma)` — the separable isotropic Gaussian blur, axis 0 then axis 1. -/
noncomputable def gaussianFilter (σ : ℚ) (img : RImage) : RImage :=
  { rows := img.rows, cols := img.cols
    val := smoothAxis1 σ img.cols (smoothAxis0 σ img.rows img.val) }

/-- Method `CRollingBall.estimateBG(image)`: converts to float64, applies the
Gaussian smoother, runs the engine on the smoothed image into a
zero-initialized `ball_image`, and returns `ball_image + ball_radius`.
The engine call on a null (`None`) handle fails with `InvalidHandle`
(modelled from the spec: the native engine's handle check). -/
noncomputable def CRollingBall.estimateBG (rb : CRollingBall) (img : QImage) :
    Except PyErr RImage :=
  match rb.c_rball with
  | none => .error .InvalidHandle
  | some k =>
    let sm := gaussianFilter rb.smoothing_sigma (astype img)
    .ok { rows := img.rows, cols := img.cols
          val := fun i j =>
            estimateBg k sm.val sm.rows sm.cols i j + (rb.ball_radius : ℝ) }

/-- Method `CRollingBall.removeBG(image)`: `image - self.estimateBG(image)`,
elementwise over the same shape. -/
noncomputable def CRollingBall.removeBG (rb : CRollingBall) (img : QImage) :
    Except PyErr RImage :=
  (rb.estimateBG img).map (fun bg =>
    { rows := img.rows, cols := img.cols
      val := fun i j => (img.val i j : ℝ) - bg.val i j })

/-- A heap of numpy arrays: an allocation counter and the contents of
each allocated reference. -/
structure Store where
  next : ℕ
  mem : ℕ → RImage

/-- Allocate a fresh array, returning the new store and the fresh
reference. -/
def Store.alloc (s : Store) (a : RImage) : Store × ℕ :=
  ({ next := s.next + 1
     mem := fun r => if r = s.next then a else s.mem r }, s.next)

/-- Overwrite the array at an existing reference in place. -/
def Store.write (s : Store) (ref : ℕ) (a : RImage) : Store :=
  { s with mem := fun r => if r = ref then a else s.mem r }

/-- Allocation `numpy.zeros(shape)`: a fresh all-zero array. -/
def zeros (rows cols : ℕ) : RImage :=
  { rows := rows, cols := cols, val := fun _ _ => 0 }

/-- Operation `CRollingBall.estimateBG` as a store transformer, making each
numpy allocation and in-place write explicit: `astype` allocates a
converted copy, `gaussian_filter` allocates its output,
`numpy.zeros` allocates `ball_image`, `rball.estimateBg` writes the
engine output into `ball_image` only (modelled from the spec: the
engine never mutates its input image), and `ball_image + ball_radius`
allocates the returned array. -/
noncomputable def estimateBGst (rb : CRollingBall) (k : BallKernel)
    (s : Store) (imgRef : ℕ) : Store × ℕ :=
  let img := s.mem imgRef
  let p1 := s.alloc { rows := img.rows, cols := img.cols, val := img.val }
  let p2 := p1.1.alloc (gaussianFilter rb.smoothing_sigma (p1.1.mem p1.2))
  let p3 := p2.1.alloc (zeros img.rows img.cols)
  let sm := p3.1.mem p2.2
  let s4 := p3.1.write p3.2
    { rows := img.rows, cols := img.cols
      val := estimateBg k sm.val sm.rows sm.cols }
  let ball := s4.mem p3.2
  let p5 := s4.alloc
    { rows := ball.rows, cols := ball.cols
      val := fun i j => ball.val i j + (rb.ball_radius : ℝ) }
  p5

/-- Operation `CRollingBall.removeBG` as a store transformer: runs `estimateBG`
and allocates `image - background`. -/
noncomputable def removeBGst (rb : CRollingBall) (k : BallKernel)
    (s : Store) (imgRef : ℕ) : Store × ℕ :=
  let p := estimateBGst rb k s imgRef
  let img := p.1.mem imgRef
  let bg := p.1.mem p.2
  p.1.alloc { rows := img.rows, cols := img.cols
              val := fun i j => img.val i j - bg.val i j }

lemma omin_none (acc : Option ℝ) : omin acc none = acc := rfl

lemma omin_some (acc : Option ℝ) (v : ℝ) :
    omin acc (some v) = some ((acc.getD v) ⊓ v) := by
  cases acc with
  | none => simp [omin]
  | some m => simp [omin]

lemma foldl_omin_none_iff {α : Type} (g : α → Option ℝ) (l : List α) (acc : Option ℝ) :
    l.foldl (fun a o => omin a (g o)) acc = none ↔
      acc = none ∧ ∀ o ∈ l, g o = none := by
  induction l generalizing acc with
  | nil => simp
  | cons x xs ih =>
    rw [List.foldl_cons, ih]
    cases hacc : acc <;> cases hg : g x <;> simp [omin, hg]

lemma foldl_omin_le {α : Type} (g : α → Option ℝ) (l : List α) (acc : Option ℝ)
    (m : ℝ) (h : l.foldl (fun a o => omin a (g o)) acc = some m) :
    (∀ o ∈ l, ∀ v, g o = some v → m ≤ v) ∧ (∀ a, acc = some a → m ≤ a) := by
  induction l generalizing acc with
  | nil =>
    refine ⟨by simp, ?_⟩
    intro a ha
    simp only [List.foldl_nil] at h
    rw [ha] at h
    exact le_of_eq (Option.some_injective ℝ h).symm
  | cons x xs ih =>
    rw [List.foldl_cons] at h
    obtain ⟨hxs, hacc⟩ := ih (omin acc (g x)) h
    constructor
    · intro o ho v hv
      rcases List.mem_cons.mp ho with rfl | ho
      · have := hacc ((acc.getD v) ⊓ v) (by rw [hv, omin_some])
        exact le_trans this (min_le_right _ _)
      · exact hxs o ho v hv
    · intro a ha
      cases hg : g x with
      | none => exact hacc a (by rw [hg, omin_none, ha])
      | some v =>
        have := hacc ((acc.getD v) ⊓ v) (by rw [hg, omin_some])
        rw [ha] at this
        simp only [Option.getD_some] at this
        exact le_trans this (min_le_left _ _)

lemma foldl_omin_attained {α : Type} (g : α → Option ℝ) (l : List α)
    (acc : Option ℝ) (m : ℝ) (h : l.foldl (fun a o => omin a (g o)) acc = some m) :
    (∃ o ∈ l, g o = some m) ∨ acc = some m := by
  induction l generalizing acc with
  | nil => simp only [List.foldl_nil] at h; exact Or.inr h
  | cons x xs ih =>
    rw [List.foldl_cons] at h
    rcases ih (omin acc (g x)) h with ⟨o, ho, hgo⟩ | hmid
    · exact Or.inl ⟨o, List.mem_cons_of_mem _ ho, hgo⟩
    · cases hg : g x with
      | none => rw [hg, omin_none] at hmid; exact Or.inr hmid
      | some v =>
        rw [hg] at hmid
        cases hacc : acc with
        | none =>
          rw [hacc] at hmid
          have hv : some v = some m := hmid
          exact Or.inl ⟨x, List.mem_cons_self _ _, by rw [hg, hv]⟩
        | some a0 =>
          rw [hacc] at hmid
          have hm : min a0 v = m := Option.some_injective ℝ hmid
          rcases min_cases a0 v with ⟨he, _⟩ | ⟨he, _⟩
          · refine Or.inr ?_
            rw [he] at hm
            rw [hm]
          · refine Or.inl ⟨x, List.mem_cons_self _ _, ?_⟩
            rw [he] at hm
            rw [hg, hm]

lemma mem_rangeInt_iff {bs : ℤ} (hbs : 0 ≤ bs) (x : ℤ) :
    x ∈ (List.range (2 * bs + 1).toNat).map (fun (t : ℕ) => -bs + (t : ℤ)) ↔
    -bs ≤ x ∧ x ≤ bs := by
  rw [List.mem_map]
  constructor
  · rintro ⟨t, ht, rfl⟩
    have := List.mem_range.mp ht
    omega
  · rintro ⟨h1, h2⟩
    exact ⟨(x + bs).toNat, List.mem_range.mpr (by omega), by omega⟩

lemma mem_offsetList {bs : ℤ} (hbs : 0 ≤ bs) (dx dy : ℤ) :
    (dx, dy) ∈ offsetList bs ↔ -bs ≤ dx ∧ dx ≤ bs ∧ -bs ≤ dy ∧ dy ≤ bs := by
  unfold offsetList
  rw [List.mem_flatMap]
  constructor
  · rintro ⟨x, hx, hmem⟩
    rw [List.mem_map] at hmem
    obtain ⟨y, hy, heq⟩ := hmem
    rw [Prod.mk.injEq] at heq
    obtain ⟨rfl, rfl⟩ := heq
    have h1 := (mem_rangeInt_iff hbs x).mp hx
    have h2 := (mem_rangeInt_iff hbs y).mp hy
    exact ⟨h1.1, h1.2, h2.1, h2.2⟩
  · rintro ⟨h1, h2, h3, h4⟩
    refine ⟨dx, (mem_rangeInt_iff hbs dx).mpr ⟨h1, h2⟩, ?_⟩
    rw [List.mem_map]
    exact ⟨dy, (mem_rangeInt_iff hbs dy).mpr ⟨h3, h4⟩, rfl⟩

lemma candidate_eq_some_iff (k : BallKernel) (f : ℤ → ℤ → ℝ) (rows cols : ℕ)
    (i j dx dy : ℤ) (v : ℝ) :
    candidate k f rows cols i j dx dy = some v ↔
      0 ≤ i + dx ∧ i + dx < (rows : ℤ) ∧ 0 ≤ j + dy ∧ j + dy < (cols : ℤ) ∧
      0 ≤ k.pre dx dy ∧ v = f (i + dx) (j + dy) - Real.sqrt (k.pre dx dy) := by
  unfold candidate kcell npSqrt
  by_cases hb : 0 ≤ i + dx ∧ i + dx < (rows : ℤ) ∧ 0 ≤ j + dy ∧ j + dy < (cols : ℤ)
  · rw [if_pos hb]
    by_cases hp : k.pre dx dy < 0
    · rw [if_pos hp]
      simp only [Option.map_none']
      constructor
      · intro h
        exact absurd h (by simp)
      · rintro ⟨_, _, _, _, hge, _⟩
        exact absurd hp (not_lt.mpr hge)
    · rw [if_neg hp]
      simp only [Option.map_some', Option.some.injEq]
      constructor
      · intro h
        exact ⟨hb.1, hb.2.1, hb.2.2.1, hb.2.2.2, not_lt.mp hp, h.symm⟩
      · rintro ⟨_, _, _, _, _, hv⟩
        exact hv.symm
  · rw [if_neg hb]
    constructor
    · intro h
      exact absurd h (by simp)
    · rintro ⟨h1, h2, h3, h4, _, _⟩
      exact absurd ⟨h1, h2, h3, h4⟩ hb

lemma candidate_of_valid (k : BallKernel) (f : ℤ → ℤ → ℝ) (rows cols : ℕ)
    (i j dx dy : ℤ) (h1 : 0 ≤ i + dx) (h2 : i + dx < (rows : ℤ))
    (h3 : 0 ≤ j + dy) (h4 : j + dy < (cols : ℤ)) (h5 : 0 ≤ k.pre dx dy) :
    candidate k f rows cols i j dx dy =
      some (f (i + dx) (j + dy) - Real.sqrt (k.pre dx dy)) :=
  (candidate_eq_some_iff k f rows cols i j dx dy _).mpr
    ⟨h1, h2, h3, h4, h5, rfl⟩

lemma gw_pos (σ : ℚ) (d : ℤ) : 0 < gw σ d := Real.exp_pos _

lemma gnorm_pos (σ : ℚ) : 0 < gnorm σ := by
  refine Finset.sum_pos (fun d _ => gw_pos σ d) ?_
  exact ⟨0, by simp⟩

lemma sum_weight (σ : ℚ) :
    ∑ d ∈ Finset.Icc (-(lw σ : ℤ)) (lw σ : ℤ), weight σ d = 1 := by
  unfold weight
  rw [← Finset.sum_div]
  exact div_self (ne_of_gt (gnorm_pos σ))

lemma sum_weight_mul (σ : ℚ) (V : ℝ) :
    ∑ d ∈ Finset.Icc (-(lw σ : ℤ)) (lw σ : ℤ), weight σ d * V = V := by
  rw [← Finset.sum_mul, sum_weight, one_mul]

lemma gaussianFilter_const (σ : ℚ) (rows cols : ℕ) (V : ℝ) :
    (gaussianFilter σ { rows := rows, cols := cols, val := fun _ _ => V }).val =
      fun _ _ => V := by
  funext i j
  unfold gaussianFilter smoothAxis1 smoothAxis0
  simp only
  rw [Finset.sum_congr rfl (fun d _ => by rw [sum_weight_mul])]
  exact sum_weight_mul σ V

lemma pythonRound_nonneg (q : ℚ) (hq : 0 ≤ q) : 0 ≤ pythonRound q := by
  have hf : (0 : ℤ) ≤ ⌊q⌋ := Int.floor_nonneg.mpr hq
  unfold pythonRound
  dsimp only
  split_ifs <;> omega

lemma ballSize_nonneg (r : ℚ) (hr : 0 < r) : 0 ≤ ballSize r :=
  pythonRound_nonneg _ (by linarith)

lemma mkKernel_pre_center (r : ℚ) : (mkKernel r).pre 0 0 = r * r := by
  simp [mkKernel]

lemma mkKernel_pre_le (r : ℚ) (dx dy : ℤ) : (mkKernel r).pre dx dy ≤ r * r := by
  simp only [mkKernel]
  have h1 : (0 : ℚ) ≤ (dx : ℚ) * dx := mul_self_nonneg _
  have h2 : (0 : ℚ) ≤ (dy : ℚ) * dy := mul_self_nonneg _
  linarith

lemma sqrt_cast_mul_self (r : ℚ) (hr : 0 ≤ r) :
    Real.sqrt ((r * r : ℚ) : ℝ) = (r : ℝ) := by
  push_cast
  exact Real.sqrt_mul_self (by exact_mod_cast hr)

lemma estimateBg_const (r : ℚ) (hr : 0 < r) (rows cols : ℕ) (V : ℝ) (i j : ℤ)
    (hi0 : 0 ≤ i) (hi : i < (rows : ℤ)) (hj0 : 0 ≤ j) (hj : j < (cols : ℤ)) :
    estimateBg (mkKernel r) (fun _ _ => V) rows cols i j = V - (r : ℝ) := by
  have hbs : 0 ≤ (mkKernel r).bs := ballSize_nonneg r hr
  have hpre0 : (0 : ℚ) ≤ (mkKernel r).pre 0 0 := by
    rw [mkKernel_pre_center]; positivity
  have hcen : candidate (mkKernel r) (fun _ _ => V) rows cols i j 0 0 =
      some (V - Real.sqrt ((mkKernel r).pre 0 0)) :=
    candidate_of_valid _ _ _ _ _ _ _ _ (by omega) (by omega) (by omega) (by omega) hpre0
  have hmem0 : ((0 : ℤ), (0 : ℤ)) ∈ offsetList (mkKernel r).bs :=
    (mem_offsetList hbs 0 0).mpr ⟨by omega, by omega, by omega, by omega⟩
  have hsqrt : Real.sqrt ((mkKernel r).pre 0 0) = (r : ℝ) := by
    rw [mkKernel_pre_center]; exact sqrt_cast_mul_self r (le_of_lt hr)
  obtain ⟨m, hm⟩ : ∃ m, bgPixel (mkKernel r) (fun _ _ => V) rows cols i j = some m := by
    cases hfold : bgPixel (mkKernel r) (fun _ _ => V) rows cols i j with
    | none =>
      exfalso
      have := (foldl_omin_none_iff _ _ _).mp hfold
      have hc := this.2 (0, 0) hmem0
      rw [hcen] at hc
      exact Option.noConfusion hc
    | some m => exact ⟨m, rfl⟩
  have hle := foldl_omin_le _ _ _ _ hm
  have hub : m ≤ V - (r : ℝ) := by
    have := hle.1 (0, 0) hmem0 _ hcen
    rwa [hsqrt] at this
  have hlb : V - (r : ℝ) ≤ m := by
    rcases foldl_omin_attained _ _ _ _ hm with ⟨o, ho, hgo⟩ | habs
    · obtain ⟨_, _, _, _, hp, hv⟩ :=
        (candidate_eq_some_iff (mkKernel r) (fun _ _ => V) rows cols i j o.1 o.2 m).mp hgo
      have hmono : Real.sqrt ((mkKernel r).pre o.1 o.2) ≤ Real.sqrt ((mkKernel r).pre 0 0) := by
        rw [mkKernel_pre_center]
        exact Real.sqrt_le_sqrt (by exact_mod_cast mkKernel_pre_le r o.1 o.2)
      rw [hsqrt] at hmono
      have hv2 : m = V - Real.sqrt ((mkKernel r).pre o.1 o.2) := hv
      rw [hv2]
      linarith
    · exact Option.noConfusion habs
  have hmv : m = V - (r : ℝ) := le_antisymm hub hlb
  unfold estimateBg
  rw [hm, Option.getD_some, hmv]

lemma ballGridPre_length (r : ℚ) :
    (ballGridPre r).length = (2 * ballSize r + 1).toNat := by
  unfold ballGridPre
  dsimp only
  rw [List.length_map, List.length_range]

lemma ballGridPre_get (r : ℚ) (x y : ℕ)
    (hx : x < (ballGridPre r).length)
    (hy : y < ((ballGridPre r).get ⟨x, hx⟩).length) :
    ((ballGridPre r).get ⟨x, hx⟩).get ⟨y, hy⟩ =
      (mkKernel r).pre ((x : ℤ) - ballSize r) ((y : ℤ) - ballSize r) := by
  unfold ballGridPre mkKernel
  simp only [List.get_eq_getElem, List.getElem_map, List.getElem_range]
  push_cast
  ring

lemma ballSize_ten : ballSize 10 = 5 := by norm_num [ballSize, pythonRound]

/-- Claim C2: for every input image on a live handle, `estimateBG`
equals the engine's background envelope of the Gaussian-smoothed
real-valued conversion of the image, with `ball_radius` added to every
pixel, and the output has the same shape as the input. -/
theorem C2_estimateBG_composition (rb : CRollingBall) (k : BallKernel)
    (h : rb.c_rball = some k) (img : QImage) :
    ∃ bg, rb.estimateBG img = .ok bg ∧ bg.rows = img.rows ∧ bg.cols = img.cols ∧
      ∀ i j : ℤ, bg.val i j =
        estimateBg k (gaussianFilter rb.smoothing_sigma (astype img)).val
          img.rows img.cols i j + (rb.ball_radius : ℝ) := by
  unfold CRollingBall.estimateBG
  rw [h]
  exact ⟨_, rfl, rfl, rfl, fun i j => rfl⟩

/-- Witness for C2 at a concrete live handle and a concrete 1×1 image. -/
theorem C2_witness :
    ({ ball_radius := 10, smoothing_sigma := 1/2, c_rball := some (mkKernel 10) }
        : CRollingBall).c_rball = some (mkKernel 10) ∧
    ∃ bg, ({ ball_radius := 10, smoothing_sigma := 1/2, c_rball := some (mkKernel 10) }
        : CRollingBall).estimateBG { rows := 1, cols := 1, val := fun _ _ => 0 } = .ok bg ∧
      bg.rows = 1 ∧ bg.cols = 1 ∧
      ∀ i j : ℤ, bg.val i j =
        estimateBg (mkKernel 10)
          (gaussianFilter (1/2) (astype { rows := 1, cols := 1, val := fun _ _ => 0 })).val
          1 1 i j + ((10 : ℚ) : ℝ) :=
  ⟨rfl, C2_estimateBG_composition _ (mkKernel 10) rfl _⟩

/-- Claim C6: calling `estimateBG` (and hence `removeBG`) after
`cleanup` has been called on the instance fails with an InvalidHandle
kind of error. -/
theorem C6_use_after_cleanup (rb : CRollingBall) (img : QImage) :
    (rb.cleanup).estimateBG img = .error .InvalidHandle ∧
    (rb.cleanup).removeBG img = .error .InvalidHandle :=
  ⟨rfl, rfl⟩

/-- Claim C7: on a live instance, `removeBG(image) + estimateBG(image)`
equals the image exactly, elementwise. -/
theorem C7_removeBG_plus_estimateBG (rb : CRollingBall) (k : BallKernel)
    (h : rb.c_rball = some k) (img : QImage) :
    ∃ bg rmv, rb.estimateBG img = .ok bg ∧ rb.removeBG img = .ok rmv ∧
      ∀ i j : ℤ, rmv.val i j + bg.val i j = (img.val i j : ℝ) := by
  unfold CRollingBall.removeBG CRollingBall.estimateBG
  rw [h]
  refine ⟨_, _, rfl, rfl, fun i j => ?_⟩
  dsimp only [Except.map]
  ring

/-- Witness for C7 at a concrete live handle and a concrete 1×1 image. -/
theorem C7_witness :
    ({ ball_radius := 10, smoothing_sigma := 1/2, c_rball := some (mkKernel 10) }
        : CRollingBall).c_rball = some (mkKernel 10) ∧
    ∃ bg rmv, ({ ball_radius := 10, smoothing_sigma := 1/2, c_rball := some (mkKernel 10) }
        : CRollingBall).estimateBG { rows := 1, cols := 1, val := fun _ _ => 7 } = .ok bg ∧
      ({ ball_radius := 10, smoothing_sigma := 1/2, c_rball := some (mkKernel 10) }
        : CRollingBall).removeBG { rows := 1, cols := 1, val := fun _ _ => 7 } = .ok rmv ∧
      ∀ i j : ℤ, rmv.val i j + bg.val i j =
        (({ rows := 1, cols := 1, val := fun _ _ => 7 } : QImage).val i j : ℝ) :=
  ⟨rfl, C7_removeBG_plus_estimateBG _ (mkKernel 10) rfl _⟩

/-- Claim C3: for positive `ball_radius`, a kernel cell at offset
`(dx, dy)` with `h = radius² - dx² - dy² ≥ 0` holds `sqrt h`; a cell
with `h < 0` is NaN, is excluded from the ball's footprint (it never
yields a candidate in the engine's minimum, so it acts as no
constraint, not as zero), and the center cell equals `ball_radius`
exactly. -/
theorem C3_kernel_cells (r : ℚ) (hr : 0 < r) :
    (∀ dx dy : ℤ, 0 ≤ (mkKernel r).pre dx dy →
      kcell (mkKernel r) dx dy = some (Real.sqrt ((mkKernel r).pre dx dy))) ∧
    (∀ dx dy : ℤ, (mkKernel r).pre dx dy < 0 → kcell (mkKernel r) dx dy = none) ∧
    (∀ (f : ℤ → ℤ → ℝ) (rows cols : ℕ) (i j dx dy : ℤ),
      (mkKernel r).pre dx dy < 0 →
      candidate (mkKernel r) f rows cols i j dx dy = none) ∧
    kcell (mkKernel r) 0 0 = some ((r : ℝ)) := by
  have hnone : ∀ dx dy : ℤ, (mkKernel r).pre dx dy < 0 →
      kcell (mkKernel r) dx dy = none := by
    intro dx dy h
    unfold kcell npSqrt
    rw [if_pos h]
  refine ⟨fun dx dy h => ?_, hnone, fun f rows cols i j dx dy h => ?_, ?_⟩
  · unfold kcell npSqrt
    rw [if_neg (not_lt.mpr h)]
  · unfold candidate
    rw [hnone dx dy h]
    split <;> rfl
  · unfold kcell npSqrt
    rw [mkKernel_pre_center]
    rw [if_neg (not_lt.mpr (mul_self_nonneg r)), sqrt_cast_mul_self r (le_of_lt hr)]

/-- Witness for C3: for `ball_radius = 10` the center cell holds
exactly 10.0. -/
theorem C3_witness : 0 < (10 : ℚ) ∧ kcell (mkKernel 10) 0 0 = some (10 : ℝ) := by
  refine ⟨by norm_num, ?_⟩
  have h := (C3_kernel_cells 10 (by norm_num)).2.2.2
  rwa [show (((10 : ℚ)) : ℝ) = (10 : ℝ) by norm_num] at h

/-- Counterexample to claim C4: for `ball_radius = 3` the constructed
kernel's side length is `2*round(1.5)+1 = 5` (round half to even),
not `2*floor(1.5)+1 = 3`. -/
theorem C4_counterexample :
    (ballGridPre 3).length ≠ (2 * ⌊(3 : ℚ) * (1/2)⌋ + 1).toNat := by
  have h : ballSize 3 = 2 := by norm_num [ballSize, pythonRound]
  have hf : ⌊(3 : ℚ) * (1/2)⌋ = 1 := by norm_num
  rw [ballGridPre_length, h, hf]
  decide

/-- Claim C4 as amended: for every positive `ball_radius`, the side
length of the constructed kernel (and of each of its rows) equals
`2*round(ball_radius*0.5)+1`, where `round` is Python's round half to
even — not `2*floor(ball_radius*0.5)+1`. -/
theorem C4_amended (r : ℚ) (hr : 0 < r) :
    ((ballGridPre r).length : ℤ) = 2 * pythonRound (r * (1/2)) + 1 ∧
    ∀ row ∈ ballGridPre r, ((row.length : ℤ)) = 2 * pythonRound (r * (1/2)) + 1 := by
  have hbs : 0 ≤ ballSize r := ballSize_nonneg r hr
  have hlen : ((2 * ballSize r + 1).toNat : ℤ) = 2 * ballSize r + 1 :=
    Int.toNat_of_nonneg (by omega)
  constructor
  · rw [ballGridPre_length, hlen]
    unfold ballSize
    rfl
  · intro row hrow
    unfold ballGridPre at hrow
    dsimp only at hrow
    rw [List.mem_map] at hrow
    obtain ⟨x, _, rfl⟩ := hrow
    rw [List.length_map, List.length_range, hlen]
    unfold ballSize
    rfl

/-- Witness for C4 as amended, at `ball_radius = 10`: side length 11. -/
theorem C4_witness :
    0 < (10 : ℚ) ∧ ((ballGridPre 10).length : ℤ) = 2 * pythonRound (10 * (1/2)) + 1 ∧
    ∀ row ∈ ballGridPre 10, ((row.length : ℤ)) = 2 * pythonRound (10 * (1/2)) + 1 :=
  ⟨by norm_num, C4_amended 10 (by norm_num)⟩

/-- Counterexample to claim C5: constructing `CRollingBall` with
`ball_radius = 0` does not fail — it succeeds and produces a handle
(the code performs no validation of `ball_radius`). -/
theorem C5_counterexample :
    CRollingBall.init 0 (1/2) =
      .ok { ball_radius := 0, smoothing_sigma := 1/2, c_rball := some (mkKernel 0) } := by
  have hbs : ballSize 0 = 0 := by norm_num [ballSize, pythonRound]
  unfold CRollingBall.init
  dsimp only
  rw [if_neg (by rw [hbs]; decide)]

/-- Claim C5 as amended: for `ball_radius ≤ 0` no InvalidParameter
validation is performed; when `round(ball_radius*0.5) ≥ 0` the
constructor succeeds and produces a handle, and when
`round(ball_radius*0.5) < 0` the `numpy.zeros` allocation fails with a
ValueError (negative dimensions), not an InvalidParameter error. -/
theorem C5_amended (r σ : ℚ) (hr : r ≤ 0) :
    (0 ≤ ballSize r →
      CRollingBall.init r σ =
        .ok { ball_radius := r, smoothing_sigma := σ, c_rball := some (mkKernel r) }) ∧
    (ballSize r < 0 → CRollingBall.init r σ = .error .ValueError) := by
  constructor
  · intro h
    unfold CRollingBall.init
    dsimp only
    rw [if_neg (not_lt.mpr h)]
  · intro h
    unfold CRollingBall.init
    dsimp only
    rw [if_pos h]

/-- Witness for C5 as amended at `ball_radius = 0`: the constructor
succeeds and yields a live handle. -/
theorem C5_witness :
    (0 : ℚ) ≤ 0 ∧ 0 ≤ ballSize 0 ∧
    CRollingBall.init 0 (1/2) =
      .ok { ball_radius := 0, smoothing_sigma := 1/2, c_rball := some (mkKernel 0) } := by
  have hbs : ballSize 0 = 0 := by norm_num [ballSize, pythonRound]
  exact ⟨le_refl 0, by rw [hbs], (C5_amended 0 (1/2) (le_refl 0)).1 (by rw [hbs])⟩

/-- Claim C10: for `ball_radius = 1.2` (which is ≥ 1), `ball_size`
is `round(0.6) = 1`, `2*ball_size²` exceeds `ball_radius²`, and the
constructed kernel holds NaN at the corner cell `(1, 1)` because the
construction takes `numpy.sqrt` of the whole grid, including the cell
where `radius² - dx² - dy²` is negative. -/
theorem C10_kernel_NaN :
    (1 : ℚ) ≤ 6/5 ∧ 0 < (6/5 : ℚ) ∧ ballSize (6/5) = 1 ∧
    (6/5 : ℚ) * (6/5) <
      2 * ((ballSize (6/5) : ℚ) * (ballSize (6/5) : ℚ)) ∧
    (mkKernel (6/5)).pre 1 1 < 0 ∧
    kcell (mkKernel (6/5)) 1 1 = none := by
  have hbs : ballSize (6/5) = 1 := by norm_num [ballSize, pythonRound]
  have hpre : (mkKernel (6/5)).pre 1 1 < 0 := by
    unfold mkKernel
    push_cast
    norm_num
  refine ⟨by norm_num, by norm_num, hbs, ?_, hpre, ?_⟩
  · rw [hbs]; norm_num
  · unfold kcell npSqrt
    rw [if_pos hpre]

/-- Claim C1: for every image and in-bounds output pixel `(i, j)` (on a
kernel with a defined center cell, as every constructed kernel has),
the engine's background value equals the minimum, over all kernel
offsets `(dx, dy)` whose cell is defined and whose image pixel
`(i+dx, j+dy)` lies within bounds, of `image[i+dx, j+dy] -
kernel[dx, dy]`: it is attained at such an offset and is a lower bound
for all of them; offsets falling outside the image are omitted. -/
theorem C1_estimateBg_minimum (k : BallKernel) (f : ℤ → ℤ → ℝ) (rows cols : ℕ)
    (i j : ℤ) (hbs : 0 ≤ k.bs) (hpre0 : 0 ≤ k.pre 0 0)
    (hi0 : 0 ≤ i) (hi : i < (rows : ℤ)) (hj0 : 0 ≤ j) (hj : j < (cols : ℤ)) :
    ∃ m, bgPixel k f rows cols i j = some m ∧
      estimateBg k f rows cols i j = m ∧
      (∃ dx dy : ℤ, -k.bs ≤ dx ∧ dx ≤ k.bs ∧ -k.bs ≤ dy ∧ dy ≤ k.bs ∧
        0 ≤ i + dx ∧ i + dx < (rows : ℤ) ∧ 0 ≤ j + dy ∧ j + dy < (cols : ℤ) ∧
        0 ≤ k.pre dx dy ∧ m = f (i + dx) (j + dy) - Real.sqrt (k.pre dx dy)) ∧
      (∀ dx dy : ℤ, -k.bs ≤ dx → dx ≤ k.bs → -k.bs ≤ dy → dy ≤ k.bs →
        0 ≤ i + dx → i + dx < (rows : ℤ) → 0 ≤ j + dy → j + dy < (cols : ℤ) →
        0 ≤ k.pre dx dy → m ≤ f (i + dx) (j + dy) - Real.sqrt (k.pre dx dy)) := by
  have hcen : candidate k f rows cols i j 0 0 =
      some (f (i + 0) (j + 0) - Real.sqrt (k.pre 0 0)) :=
    candidate_of_valid _ _ _ _ _ _ _ _ (by omega) (by omega) (by omega) (by omega) hpre0
  have hmem0 : ((0 : ℤ), (0 : ℤ)) ∈ offsetList k.bs :=
    (mem_offsetList hbs 0 0).mpr ⟨by omega, by omega, by omega, by omega⟩
  obtain ⟨m, hm⟩ : ∃ m, bgPixel k f rows cols i j = some m := by
    cases hfold : bgPixel k f rows cols i j with
    | none =>
      exfalso
      have hall := ((foldl_omin_none_iff _ _ _).mp hfold).2 (0, 0) hmem0
      rw [hcen] at hall
      exact Option.noConfusion hall
    | some m => exact ⟨m, rfl⟩
  refine ⟨m, hm, by unfold estimateBg; rw [hm, Option.getD_some], ?_, ?_⟩
  · rcases foldl_omin_attained _ _ _ _ hm with ⟨o, ho, hgo⟩ | habs
    · obtain ⟨h1, h2, h3, h4, h5, h6⟩ :=
        (candidate_eq_some_iff k f rows cols i j o.1 o.2 m).mp hgo
      have hrange := (mem_offsetList hbs o.1 o.2).mp (by
        rcases o with ⟨dx, dy⟩
        exact ho)
      exact ⟨o.1, o.2, hrange.1, hrange.2.1, hrange.2.2.1, hrange.2.2.2,
        h1, h2, h3, h4, h5, h6⟩
    · exact Option.noConfusion habs
  · intro dx dy ha1 ha2 ha3 ha4 hb1 hb2 hb3 hb4 hp
    have hmem : (dx, dy) ∈ offsetList k.bs :=
      (mem_offsetList hbs dx dy).mpr ⟨ha1, ha2, ha3, ha4⟩
    exact (foldl_omin_le _ _ _ _ hm).1 (dx, dy) hmem _
      (candidate_of_valid _ _ _ _ _ _ _ _ hb1 hb2 hb3 hb4 hp)

/-- Witness for C1 at the kernel of radius 10, the zero 1×1 image, and
pixel (0, 0). -/
theorem C1_witness :
    0 ≤ (mkKernel 10).bs ∧ 0 ≤ (mkKernel 10).pre 0 0 ∧
    ∃ m, bgPixel (mkKernel 10) (fun _ _ => 0) 1 1 0 0 = some m ∧
      estimateBg (mkKernel 10) (fun _ _ => 0) 1 1 0 0 = m ∧
      (∃ dx dy : ℤ, -(mkKernel 10).bs ≤ dx ∧ dx ≤ (mkKernel 10).bs ∧
        -(mkKernel 10).bs ≤ dy ∧ dy ≤ (mkKernel 10).bs ∧
        0 ≤ 0 + dx ∧ 0 + dx < ((1 : ℕ) : ℤ) ∧ 0 ≤ 0 + dy ∧ 0 + dy < ((1 : ℕ) : ℤ) ∧
        0 ≤ (mkKernel 10).pre dx dy ∧
        m = (fun (_ _ : ℤ) => (0 : ℝ)) (0 + dx) (0 + dy) -
          Real.sqrt ((mkKernel 10).pre dx dy)) ∧
      (∀ dx dy : ℤ, -(mkKernel 10).bs ≤ dx → dx ≤ (mkKernel 10).bs →
        -(mkKernel 10).bs ≤ dy → dy ≤ (mkKernel 10).bs →
        0 ≤ 0 + dx → 0 + dx < ((1 : ℕ) : ℤ) → 0 ≤ 0 + dy → 0 + dy < ((1 : ℕ) : ℤ) →
        0 ≤ (mkKernel 10).pre dx dy →
        m ≤ (fun (_ _ : ℤ) => (0 : ℝ)) (0 + dx) (0 + dy) -
          Real.sqrt ((mkKernel 10).pre dx dy)) := by
  have hbs : (0 : ℤ) ≤ (mkKernel 10).bs := by
    show (0 : ℤ) ≤ ballSize 10
    rw [ballSize_ten]
    decide
  have hpre : (0 : ℚ) ≤ (mkKernel 10).pre 0 0 := by
    rw [mkKernel_pre_center]
    norm_num
  exact ⟨hbs, hpre,
    C1_estimateBg_minimum (mkKernel 10) (fun _ _ => 0) 1 1 0 0 hbs hpre
      (by omega) (by norm_num) (by omega) (by norm_num)⟩

/-- Claim C8: for every constant image of value `V` with dimensions at
least the kernel size (built on a handle constructed with positive
radius), `estimateBG` returns the constant `V` at every in-bounds pixel
and `removeBG` returns zero at every in-bounds pixel — exactly, in the
real-valued model, which subsumes the floating-point tolerance of the
claim's 100×100 scenario (where the minimum and maximum of the output
are both 0). -/
theorem C8_constant_image (V r σ : ℚ) (rows cols : ℕ) (hr : 0 < r)
    (hrows : (2 * ballSize r + 1).toNat ≤ rows)
    (hcols : (2 * ballSize r + 1).toNat ≤ cols)
    (rb : CRollingBall) (hinit : CRollingBall.init r σ = .ok rb) :
    ∃ bg rmv,
      rb.estimateBG { rows := rows, cols := cols, val := fun _ _ => V } = .ok bg ∧
      rb.removeBG { rows := rows, cols := cols, val := fun _ _ => V } = .ok rmv ∧
      bg.rows = rows ∧ bg.cols = cols ∧ rmv.rows = rows ∧ rmv.cols = cols ∧
      (∀ i j : ℤ, 0 ≤ i → i < (rows : ℤ) → 0 ≤ j → j < (cols : ℤ) →
        bg.val i j = (V : ℝ)) ∧
      (∀ i j : ℤ, 0 ≤ i → i < (rows : ℤ) → 0 ≤ j → j < (cols : ℤ) →
        rmv.val i j = 0) := by
  have hbs : ¬ (ballSize r < 0) := not_lt.mpr (ballSize_nonneg r hr)
  unfold CRollingBall.init at hinit
  dsimp only at hinit
  rw [if_neg hbs] at hinit
  have hrb := Except.ok.inj hinit
  subst hrb
  have hsm : (gaussianFilter σ
      (astype { rows := rows, cols := cols, val := fun _ _ => V })).val =
      fun _ _ => ((V : ℚ) : ℝ) :=
    gaussianFilter_const σ rows cols ((V : ℚ) : ℝ)
  refine ⟨_, _, rfl, rfl, rfl, rfl, rfl, rfl, ?_, ?_⟩
  · intro i j hi0 hi hj0 hj
    show estimateBg (mkKernel r)
        (gaussianFilter σ (astype { rows := rows, cols := cols, val := fun _ _ => V })).val
        rows cols i j + ((r : ℚ) : ℝ) = (V : ℝ)
    rw [hsm, estimateBg_const r hr rows cols _ i j hi0 hi hj0 hj]
    ring
  · intro i j hi0 hi hj0 hj
    show ((V : ℚ) : ℝ) -
        (estimateBg (mkKernel r)
          (gaussianFilter σ (astype { rows := rows, cols := cols, val := fun _ _ => V })).val
          rows cols i j + ((r : ℚ) : ℝ)) = 0
    rw [hsm, estimateBg_const r hr rows cols _ i j hi0 hi hj0 hj]
    ring

/-- Witness for C8 at the claim's concrete scenario: a 100×100 image of
constant 100.0, radius 10, sigma 0.5. -/
theorem C8_witness :
    0 < (10 : ℚ) ∧ (2 * ballSize 10 + 1).toNat ≤ 100 ∧
    CRollingBall.init 10 (1/2) =
      .ok { ball_radius := 10, smoothing_sigma := 1/2, c_rball := some (mkKernel 10) } ∧
    ∃ bg rmv,
      ({ ball_radius := 10, smoothing_sigma := 1/2, c_rball := some (mkKernel 10) }
        : CRollingBall).estimateBG
          { rows := 100, cols := 100, val := fun _ _ => 100 } = .ok bg ∧
      ({ ball_radius := 10, smoothing_sigma := 1/2, c_rball := some (mkKernel 10) }
        : CRollingBall).removeBG
          { rows := 100, cols := 100, val := fun _ _ => 100 } = .ok rmv ∧
      bg.rows = 100 ∧ bg.cols = 100 ∧ rmv.rows = 100 ∧ rmv.cols = 100 ∧
      (∀ i j : ℤ, 0 ≤ i → i < ((100 : ℕ) : ℤ) → 0 ≤ j → j < ((100 : ℕ) : ℤ) →
        bg.val i j = ((100 : ℚ) : ℝ)) ∧
      (∀ i j : ℤ, 0 ≤ i → i < ((100 : ℕ) : ℤ) → 0 ≤ j → j < ((100 : ℕ) : ℤ) →
        rmv.val i j = 0) := by
  have hdim : (2 * ballSize 10 + 1).toNat ≤ 100 := by rw [ballSize_ten]; decide
  have hinit : CRollingBall.init 10 (1/2) =
      .ok { ball_radius := 10, smoothing_sigma := 1/2, c_rball := some (mkKernel 10) } := by
    unfold CRollingBall.init
    dsimp only
    rw [if_neg (by rw [ballSize_ten]; decide)]
  exact ⟨by norm_num, hdim, hinit,
    C8_constant_image 100 10 (1/2) 100 100 (by norm_num) hdim hdim _ hinit⟩

/-- Claim C9: neither `estimateBG` nor `removeBG` mutates the input
image array: in the store model, after either call the array at the
input reference is unchanged (all writes target freshly allocated
arrays, and the returned reference is fresh). -/
theorem C9_no_input_mutation (rb : CRollingBall) (k : BallKernel)
    (s : Store) (imgRef : ℕ) (h : imgRef < s.next) :
    (estimateBGst rb k s imgRef).1.mem imgRef = s.mem imgRef ∧
    (removeBGst rb k s imgRef).1.mem imgRef = s.mem imgRef ∧
    s.next ≤ (estimateBGst rb k s imgRef).2 ∧
    s.next ≤ (removeBGst rb k s imgRef).2 := by
  have hest : (estimateBGst rb k s imgRef).1.mem imgRef = s.mem imgRef := by
    unfold estimateBGst
    dsimp only [Store.alloc, Store.write]
    split_ifs <;> first | rfl | omega
  refine ⟨hest, ?_, ?_, ?_⟩
  · unfold removeBGst
    dsimp only [Store.alloc]
    rw [if_neg ?_]
    · exact hest
    · unfold estimateBGst
      dsimp only [Store.alloc, Store.write]
      omega
  · unfold estimateBGst
    dsimp only [Store.alloc, Store.write]
    omega
  · unfold removeBGst estimateBGst
    dsimp only [Store.alloc, Store.write]
    omega

/-- Witness for C9 at a concrete one-array store. -/
theorem C9_witness :
    0 < ({ next := 1, mem := fun _ => zeros 2 2 } : Store).next ∧
    ((estimateBGst { ball_radius := 10, smoothing_sigma := 1/2, c_rball := some (mkKernel 10) }
        (mkKernel 10) { next := 1, mem := fun _ => zeros 2 2 } 0).1.mem 0 =
      ({ next := 1, mem := fun _ => zeros 2 2 } : Store).mem 0) ∧
    ((removeBGst { ball_radius := 10, smoothing_sigma := 1/2, c_rball := some (mkKernel 10) }
        (mkKernel 10) { next := 1, mem := fun _ => zeros 2 2 } 0).1.mem 0 =
      ({ next := 1, mem := fun _ => zeros 2 2 } : Store).mem 0) := by
  have h := C9_no_input_mutation
    { ball_radius := 10, smoothing_sigma := 1/2, c_rball := some (mkKernel 10) }
    (mkKernel 10) { next := 1, mem := fun _ => zeros 2 2 } 0 (by decide)
  exact ⟨by decide, h.1, h.2.1⟩

end RollingBall
